import Mathlib

/-
Verification development for the omiedata repository (Go).

The definitions below are a shallow embedding of the Go source:
strings are Lean strings, Go float64 values carrying parsed decimals are
modelled as rationals together with an explicit NaN marker, Go errors
are explicit sum types, and the concurrent download orchestrator is
modelled as a pure function over a fetch oracle plus an explicit
worker-assignment and interleaving relation.
-/

/-- Model of the whitespace test used by Go strings.TrimSpace
(unicode.IsSpace) restricted to the ASCII whitespace characters that can
occur in the OMIE text files. -/
def goIsSpace (c : Char) : Bool :=
  c = ' ' || c = '\t' || c = '\n' || c = '\r' || c = '\x0b' || c = '\x0c'

/-- Drop leading whitespace characters. -/
def trimLeftChars : List Char → List Char
  | [] => []
  | c :: cs => if goIsSpace c then trimLeftChars cs else c :: cs

/-- Model of Go strings.TrimSpace on a character list. -/
def trimChars (cs : List Char) : List Char :=
  ((trimLeftChars ((trimLeftChars cs.reverse)).reverse).reverse).reverse

/-- Model of Go strings.TrimSpace. -/
def trimSpace (s : String) : String :=
  String.mk (trimChars s.toList)

/-- Model of Go strings.Split with a one-character separator: splitting
an empty string yields one empty field, and a separator at the end yields
a trailing empty field, exactly as in Go. -/
def splitOnChar (sep : Char) : List Char → List (List Char)
  | [] => [[]]
  | c :: cs =>
    if c = sep then [] :: splitOnChar sep cs
    else
      match splitOnChar sep cs with
      | [] => [[c]]
      | g :: gs => (c :: g) :: gs

/-- Model of parsers.SplitCSV from src/parsers/utils.go: split a line on
the semicolon separator. -/
def SplitCSV (line : String) : List String :=
  (splitOnChar ';' line.toList).map String.mk

/-- Index of the last occurrence of a character, counting from the front;
models Go strings.LastIndex with a one-character needle (none models the
Go result -1). -/
def lastIdxOf (c : Char) : List Char → Option Nat
  | [] => none
  | a :: as =>
    match lastIdxOf c as with
    | some i => some (i + 1)
    | none => if a = c then some 0 else none

/-- All characters are decimal digits. -/
def allDigits (cs : List Char) : Bool :=
  cs.all (·.isDigit)

/-- Numeric value of a digit string, most significant digit first. -/
def natOfDigits (cs : List Char) : Nat :=
  cs.foldl (fun acc c => 10 * acc + (c.toNat - 48)) 0

/-- Exact rational value of the decimal numeral with integer part ip,
fraction digits worth fp, and fl fraction digits. -/
def decToRat (ip fp fl : Nat) : ℚ :=
  (ip : ℚ) + (fp : ℚ) / (10 ^ fl)

/-- Model of Go strconv.ParseFloat restricted to plain decimal numerals
without exponent (the only numeral shape the OMIE preprocessing feeds
it): an unsigned mantissa is digit characters with at most one dot and
at least one digit. The parsed value is kept as an exact rational. -/
def parseUnsignedFloat (cs : List Char) : Option ℚ :=
  match splitOnChar '.' cs with
  | [a] =>
    if a ≠ [] && allDigits a then some (decToRat (natOfDigits a) 0 0) else none
  | [a, b] =>
    if (a ≠ [] || b ≠ []) && allDigits a && allDigits b then
      some (decToRat (natOfDigits a) (natOfDigits b) b.length)
    else none
  | _ => none

/-- Model of Go strconv.ParseFloat including an optional leading sign. -/
def parseFloatCore (cs : List Char) : Option ℚ :=
  match cs with
  | '+' :: rest => parseUnsignedFloat rest
  | '-' :: rest => (parseUnsignedFloat rest).map (fun q => -q)
  | _ => parseUnsignedFloat cs

/-- A Go float64 as used by the parsers: either the NaN marker for
missing data or an exact decimal value. -/
inductive GoFloat
  | nan
  | val (q : ℚ)
deriving DecidableEq, Repr

/-- Normalization step of parsers.ParseFloat (src/parsers/utils.go,
lines 127-145): if the text has a comma, every dot before the last comma
is removed and the last comma becomes a dot; otherwise, if the text
contains a dot and splitting on dots yields more than two parts, all
dots are removed; otherwise the text is unchanged. -/
def euroNormalize (cs : List Char) : List Char :=
  match lastIdxOf ',' cs with
  | some i => (cs.take i).filter (· ≠ '.') ++ '.' :: cs.drop (i + 1)
  | none =>
    if cs.contains '.' ∧ 2 < (splitOnChar '.' cs).length then
      cs.filter (· ≠ '.')
    else cs

/-- Model of parsers.ParseFloat (src/parsers/utils.go, lines 121-148):
blank input yields the NaN marker with no error; otherwise the trimmed
text is normalized from the European format and handed to the float
parser, whose failure is the format error. -/
def ParseFloat (s : String) : Except Unit GoFloat :=
  if trimSpace s = "" then Except.ok GoFloat.nan
  else
    match parseFloatCore (euroNormalize (trimSpace s).toList) with
    | some q => Except.ok (GoFloat.val q)
    | none => Except.error ()

/-- Split a character list at its last comma, integer part on the left,
fraction on the right. Written from the wording of the specification
(section 4.1), as the reference side of the refinement claim C4. -/
def splitAtLastComma : List Char → Option (List Char × List Char)
  | [] => none
  | c :: rest =>
    match splitAtLastComma rest with
    | some (a, b) => some (c :: a, b)
    | none => if c = ',' then some ([], rest) else none

/-- Reference normalization written from the wording of the
specification, section 4.1: if the trimmed text contains a decimal
comma, the last comma is the decimal point, dots inside the integer part
are stripped and the parts are recombined; else if the text contains two
or more dot characters they are all stripped; else a single dot is kept
as the decimal point. Second definition of the refinement claim C4. -/
def specNormalize (cs : List Char) : List Char :=
  match splitAtLastComma cs with
  | some (intPart, fracPart) => intPart.filter (· ≠ '.') ++ '.' :: fracPart
  | none =>
    if 2 ≤ cs.count '.' then cs.filter (· ≠ '.') else cs

/-- Reference decimal parser written from the wording of the
specification, section 4.1; to be compared with ParseFloat. -/
def parseDecimalSpec (s : String) : Except Unit GoFloat :=
  if trimSpace s = "" then Except.ok GoFloat.nan
  else
    match parseFloatCore (specNormalize (trimSpace s).toList) with
    | some q => Except.ok (GoFloat.val q)
    | none => Except.error ()

lemma splitAtLastComma_eq_none (cs : List Char) :
    splitAtLastComma cs = none ↔ lastIdxOf ',' cs = none := by
  induction cs with
  | nil => simp [splitAtLastComma, lastIdxOf]
  | cons c rest ih =>
    cases h : splitAtLastComma rest with
    | some p =>
      obtain ⟨a, b⟩ := p
      have hl : lastIdxOf ',' rest ≠ none := by
        intro hn
        rw [ih.mpr hn] at h
        simp at h
      cases hli : lastIdxOf ',' rest with
      | none => exact absurd hli hl
      | some i => simp [splitAtLastComma, lastIdxOf, h, hli]
    | none =>
      have hl : lastIdxOf ',' rest = none := ih.mp h
      by_cases hc : c = ','
      · simp [splitAtLastComma, lastIdxOf, h, hl, hc]
      · simp [splitAtLastComma, lastIdxOf, h, hl, hc]

lemma splitAtLastComma_eq_some (cs : List Char) (i : Nat)
    (h : lastIdxOf ',' cs = some i) :
    splitAtLastComma cs = some (cs.take i, cs.drop (i + 1)) := by
  induction cs generalizing i with
  | nil => simp [lastIdxOf] at h
  | cons c rest ih =>
    simp only [lastIdxOf] at h
    cases hl : lastIdxOf ',' rest with
    | some j =>
      rw [hl] at h
      injection h with h
      subst h
      have hrec := ih j hl
      simp [splitAtLastComma, hrec, List.take_succ_cons, List.drop_succ_cons]
    | none =>
      rw [hl] at h
      have hs : splitAtLastComma rest = none := (splitAtLastComma_eq_none rest).mpr hl
      by_cases hc : c = ','
      · rw [if_pos hc] at h
        injection h with h
        subst h
        simp [splitAtLastComma, hs, hc]
      · rw [if_neg hc] at h
        exact absurd h (by simp)

lemma splitOnChar_ne_nil (sep : Char) (cs : List Char) : splitOnChar sep cs ≠ [] := by
  cases cs with
  | nil => simp [splitOnChar]
  | cons c rest =>
    simp only [splitOnChar]
    by_cases hc : c = sep
    · simp [hc]
    · simp only [hc, if_false]
      cases splitOnChar sep rest <;> simp

lemma splitOnChar_length (sep : Char) (cs : List Char) :
    (splitOnChar sep cs).length = cs.count sep + 1 := by
  induction cs with
  | nil => simp [splitOnChar]
  | cons c rest ih =>
    simp only [splitOnChar]
    by_cases hc : c = sep
    · simp [hc, List.count_cons, ih]
    · cases h : splitOnChar sep rest with
      | nil => exact absurd h (splitOnChar_ne_nil sep rest)
      | cons g gs =>
        rw [h] at ih
        simp only [List.length_cons] at ih
        simp [hc, List.count_cons, ih]

lemma contains_iff_count_pos (c : Char) (cs : List Char) :
    cs.contains c = true ↔ 0 < cs.count c := by
  exact List.elem_iff.trans List.count_pos_iff.symm

lemma euroNormalize_eq_specNormalize (cs : List Char) :
    euroNormalize cs = specNormalize cs := by
  unfold euroNormalize specNormalize
  cases h : lastIdxOf ',' cs with
  | some i =>
    rw [splitAtLastComma_eq_some cs i h]
  | none =>
    rw [(splitAtLastComma_eq_none cs).mpr h]
    by_cases h2 : 2 ≤ cs.count '.'
    · have hc : cs.contains '.' = true := by
        rw [contains_iff_count_pos]; omega
      have hlen : 2 < (splitOnChar '.' cs).length := by
        rw [splitOnChar_length]; omega
      rw [if_pos ⟨hc, hlen⟩, if_pos h2]
    · have hne : ¬ (cs.contains '.' = true ∧ 2 < (splitOnChar '.' cs).length) := by
        rintro ⟨hcon, hlen⟩
        rw [splitOnChar_length] at hlen
        omega
      rw [if_neg h2, if_neg hne]

deriving instance DecidableEq for Except

/-- Claim C4: ParseFloat implements exactly the three-case
disambiguation of section 4.1 of the specification. The first conjunct
is the refinement: ParseFloat coincides with the reference parser
written from the wording of the specification on every input. The
remaining conjuncts evaluate the documented examples: a dotted thousands
group with a decimal comma, a plain decimal comma, and a single kept
decimal dot. -/
theorem C4_parseFloat_three_case_disambiguation :
    (∀ s : String, ParseFloat s = parseDecimalSpec s) ∧
    ParseFloat "1.432,0" = Except.ok (GoFloat.val 1432) ∧
    ParseFloat "24326,2" = Except.ok (GoFloat.val (24326.2 : ℚ)) ∧
    ParseFloat "7.087,2" = Except.ok (GoFloat.val (7087.2 : ℚ)) ∧
    ParseFloat "3.14" = Except.ok (GoFloat.val (3.14 : ℚ)) := by
  refine ⟨fun s => ?_, ?_, ?_, ?_, ?_⟩
  · unfold ParseFloat parseDecimalSpec
    rw [euroNormalize_eq_specNormalize]
  · rw [show ParseFloat "1.432,0" = Except.ok (GoFloat.val (decToRat 1432 0 1)) from rfl]
    norm_num [decToRat]
  · rw [show ParseFloat "24326,2" = Except.ok (GoFloat.val (decToRat 24326 2 1)) from rfl]
    norm_num [decToRat]
  · rw [show ParseFloat "7.087,2" = Except.ok (GoFloat.val (decToRat 7087 2 1)) from rfl]
    norm_num [decToRat]
  · rw [show ParseFloat "3.14" = Except.ok (GoFloat.val (decToRat 3 14 2)) from rfl]
    norm_num [decToRat]

/-- Claim C5: ParseFloat maps blank input (empty or whitespace-only) to
the NaN missing marker without error, and a format error can only arise
on non-blank input; the final conjuncts evaluate the empty string, a
whitespace-only string, and a non-blank invalid numeral. -/
theorem C5_parseFloat_blank_is_missing :
    (∀ s : String, trimSpace s = "" → ParseFloat s = Except.ok GoFloat.nan) ∧
    (∀ (s : String) (e : Unit), ParseFloat s = Except.error e → trimSpace s ≠ "") ∧
    ParseFloat "" = Except.ok GoFloat.nan ∧
    ParseFloat "   " = Except.ok GoFloat.nan ∧
    ParseFloat "abc" = Except.error () := by
  refine ⟨fun s h => ?_, fun s e he h => ?_, rfl, rfl, rfl⟩
  · unfold ParseFloat
    rw [if_pos h]
  · unfold ParseFloat at he
    rw [if_pos h] at he
    exact Except.noConfusion he

/-- Witness for claim C5 at a concrete whitespace-only input. -/
theorem C5_witness : ParseFloat "\t " = Except.ok GoFloat.nan :=
  C5_parseFloat_blank_is_missing.1 "\t " (by decide)

/-- Error cases of the two parser variants, one constructor per Go error
message produced in src/parsers (the Go OMIEError carries code
ErrCodeParse plus the message; only the message distinguishes them). -/
inductive ParseErr
  | emptyFile
  | missingHeaderDates
  | badDateFormat
  | noValidData
  | insufficientFields
  | emptyHourValue
  | invalidHourFormat
  | hourOutOfRange
  | insufficientLines
  | noDateInHeader
  | noTechnologyColumns
  | noValidDataRecords
deriving DecidableEq, Repr

/-- The six data concepts of types.DataTypeInMarginalPriceFile
(src/types/enums.go). -/
inductive DataTypeMP
  | priceSpain
  | pricePortugal
  | energyIberian
  | energyIberianWithBilateral
  | energyBuySpain
  | energySellSpain
deriving DecidableEq, Repr

/-- The default concept list loaded by NewMarginalPriceParser when no
concepts are requested (src/unnamed/part_006, lines 21-31). -/
def defaultConcepts : List DataTypeMP :=
  [DataTypeMP.priceSpain, DataTypeMP.pricePortugal, DataTypeMP.energyIberian,
   DataTypeMP.energyIberianWithBilateral, DataTypeMP.energyBuySpain,
   DataTypeMP.energySellSpain]

/-- The concept table of MarginalPriceParser.mapConcept
(src/unnamed/part_006, lines 173-197): exact Spanish label text to
concept and unit multiplier. -/
def conceptTable : List (String × DataTypeMP × ℚ) :=
  [("Precio marginal (Cent/kWh)", DataTypeMP.priceSpain, 10),
   ("Precio marginal en el sistema español (Cent/kWh)", DataTypeMP.priceSpain, 10),
   ("Precio marginal en el sistema portugués (Cent/kWh)", DataTypeMP.pricePortugal, 10),
   ("Precio marginal (EUR/MWh)", DataTypeMP.priceSpain, 1),
   ("Precio marginal en el sistema español (EUR/MWh)", DataTypeMP.priceSpain, 1),
   ("Precio marginal en el sistema portugués (EUR/MWh)", DataTypeMP.pricePortugal, 1),
   ("Precio de ajuste en el sistema español (EUR/MWh)", DataTypeMP.priceSpain, 1),
   ("Precio de ajuste en el sistema portugués (EUR/MWh)", DataTypeMP.pricePortugal, 1),
   ("Demanda+bombeos (MWh)", DataTypeMP.energyIberian, 1),
   ("Energía en el programa resultante de la casación (MWh)", DataTypeMP.energyIberian, 1),
   ("Energía total del mercado Ibérico (MWh)", DataTypeMP.energyIberian, 1),
   ("Energía total con bilaterales del mercado Ibérico (MWh)", DataTypeMP.energyIberianWithBilateral, 1),
   ("Energía total de compra sistema español (MWh)", DataTypeMP.energyBuySpain, 1),
   ("Energía total de venta sistema español (MWh)", DataTypeMP.energySellSpain, 1),
   ("Energía horaria sujeta al mecanismo de ajuste a los consumidores MIBEL (MWh)", DataTypeMP.energyIberian, 1)]

/-- Model of MarginalPriceParser.mapConcept: exact lookup in the concept
table; none models the Go sentinel result of empty concept and zero
multiplier. -/
def mapConcept (concept : String) : Option (DataTypeMP × ℚ) :=
  (conceptTable.find? (fun e => e.1 == concept)).map (fun e => e.2)

/-- A calendar date as parsed by parsers.ParseDate. -/
structure GoDate where
  day : Nat
  month : Nat
  year : Nat
deriving DecidableEq, Repr

def isLeapYear (y : Nat) : Bool :=
  (y % 4 = 0 && y % 100 ≠ 0) || y % 400 = 0

def daysInMonth (m y : Nat) : Nat :=
  if m = 2 then (if isLeapYear y then 29 else 28)
  else if m = 4 ∨ m = 6 ∨ m = 9 ∨ m = 11 then 30
  else 31

/-- Model of parsers.ParseDate (src/parsers/utils.go): Go time.Parse
with the fixed layout day/month/year on the trimmed text, requiring two
digits, two digits and four digits around the two slashes, and
validating the calendar ranges as time.Parse does. -/
def ParseDate (s : String) : Except ParseErr GoDate :=
  match (trimSpace s).toList with
  | [d1, d2, c1, m1, m2, c2, y1, y2, y3, y4] =>
    if c1 = '/' ∧ c2 = '/' ∧ allDigits [d1, d2, m1, m2, y1, y2, y3, y4] then
      let d := natOfDigits [d1, d2]
      let m := natOfDigits [m1, m2]
      let y := natOfDigits [y1, y2, y3, y4]
      if 1 ≤ m ∧ m ≤ 12 ∧ 1 ≤ d ∧ d ≤ daysInMonth m y then
        Except.ok ⟨d, m, y⟩
      else Except.error ParseErr.badDateFormat
    else Except.error ParseErr.badDateFormat
  | _ => Except.error ParseErr.badDateFormat

/-- Ten leading characters have the shape of a day/month/year date token
(model of the regular expression over digits and slashes used by the
header scanners in src/unnamed/part_006 and the tabular parser). -/
def dateShape : List Char → Bool
  | d1 :: d2 :: s1 :: m1 :: m2 :: s2 :: y1 :: y2 :: y3 :: y4 :: _ =>
    d1.isDigit && d2.isDigit && s1 = '/' && m1.isDigit && m2.isDigit && s2 = '/' &&
    y1.isDigit && y2.isDigit && y3.isDigit && y4.isDigit
  | _ => false

/-- Leftmost non-overlapping matches of the date regular expression in a
line, as Go regexp FindAllString returns them; the fuel argument is the
length of the text, which bounds the number of scan steps. -/
def findDateMatchesAux : Nat → List Char → List (List Char)
  | 0, _ => []
  | _, [] => []
  | fuel + 1, c :: cs =>
    if dateShape (c :: cs) then ((c :: cs).take 10) :: findDateMatchesAux fuel (cs.drop 9)
    else findDateMatchesAux fuel cs

def findDateMatches (cs : List Char) : List (List Char) :=
  findDateMatchesAux cs.length cs

/-- Model of MarginalPriceParser.parseDateFromHeader
(src/unnamed/part_006, lines 103-114): at least two date tokens are
required and the second is parsed as the data date. -/
def parseDateFromHeader (headerLine : String) : Except ParseErr GoDate :=
  let ms := findDateMatches headerLine.toList
  if ms.length < 2 then Except.error ParseErr.missingHeaderDates
  else ParseDate (String.mk (ms.getD 1 []))

/-- Multiplication of a parsed value by the unit multiplier as Go
performs it on float64: NaN times anything stays NaN. -/
def mulF : GoFloat → ℚ → GoFloat
  | GoFloat.nan, _ => GoFloat.nan
  | GoFloat.val q, m => GoFloat.val (q * m)

/-- The hourly-value loop of MarginalPriceParser.parseDataLine
(src/unnamed/part_006, lines 145-163): the loop index i starts after the
label field, breaks at 25, skips blank fields and fields the float
parser rejects, and stores the value times the multiplier at the
one-based hour i + 1. -/
def parseHourlyValuesAux (mult : ℚ) : Nat → List String → List (Nat × GoFloat)
  | _, [] => []
  | i, f :: fs =>
    if 25 ≤ i then []
    else if trimSpace f = "" then parseHourlyValuesAux mult (i + 1) fs
    else
      match ParseFloat f with
      | Except.error _ => parseHourlyValuesAux mult (i + 1) fs
      | Except.ok v => (i + 1, mulF v mult) :: parseHourlyValuesAux mult (i + 1) fs

def parseHourlyValues (fields : List String) (mult : ℚ) : List (Nat × GoFloat) :=
  parseHourlyValuesAux mult 0 (fields.drop 1)

/-- Model of types.MarginalPriceRecord. -/
structure MarginalPriceRecord where
  date : GoDate
  concept : DataTypeMP
  values : List (Nat × GoFloat)
deriving DecidableEq, Repr

/-- Model of MarginalPriceParser.parseDataLine (src/unnamed/part_006,
lines 117-170). An ok none result models the Go nil record for rows that
are not of interest. -/
def parseDataLine (concepts : List DataTypeMP) (line : String) (date : GoDate) :
    Except ParseErr (Option MarginalPriceRecord) :=
  let fields := SplitCSV line
  if fields.length < 2 then Except.error ParseErr.insufficientFields
  else
    match mapConcept (trimSpace (fields.getD 0 "")) with
    | none => Except.ok none
    | some (conceptType, multiplier) =>
      if conceptType ∈ concepts then
        Except.ok (some ⟨date, conceptType, parseHourlyValues fields multiplier⟩)
      else Except.ok none

/-- Go map assignment on an association list: overwrite the key when
present, append otherwise. -/
def mapInsert (m : List (Nat × GoFloat)) (k : Nat) (v : GoFloat) : List (Nat × GoFloat) :=
  if m.any (fun p => p.1 = k) then
    m.map (fun p => if p.1 = k then (k, v) else p)
  else m ++ [(k, v)]

/-- Model of types.MarginalPriceData with hour maps as association
lists. -/
structure MarginalPriceData where
  date : GoDate
  spainPrices : List (Nat × GoFloat)
  portugalPrices : List (Nat × GoFloat)
  spainBuyEnergy : List (Nat × GoFloat)
  spainSellEnergy : List (Nat × GoFloat)
  iberianEnergy : List (Nat × GoFloat)
  bilateralEnergy : List (Nat × GoFloat)
deriving DecidableEq, Repr

def newMarginalPriceData (date : GoDate) : MarginalPriceData :=
  ⟨date, [], [], [], [], [], []⟩

/-- Model of MarginalPriceParser.addRecordToResult
(src/unnamed/part_006, lines 207-234). -/
def addRecordToResult (result : MarginalPriceData) (r : MarginalPriceRecord) :
    MarginalPriceData :=
  match r.concept with
  | DataTypeMP.priceSpain =>
    { result with spainPrices := r.values.foldl (fun m hv => mapInsert m hv.1 hv.2) result.spainPrices }
  | DataTypeMP.pricePortugal =>
    { result with portugalPrices := r.values.foldl (fun m hv => mapInsert m hv.1 hv.2) result.portugalPrices }
  | DataTypeMP.energyBuySpain =>
    { result with spainBuyEnergy := r.values.foldl (fun m hv => mapInsert m hv.1 hv.2) result.spainBuyEnergy }
  | DataTypeMP.energySellSpain =>
    { result with spainSellEnergy := r.values.foldl (fun m hv => mapInsert m hv.1 hv.2) result.spainSellEnergy }
  | DataTypeMP.energyIberian =>
    { result with iberianEnergy := r.values.foldl (fun m hv => mapInsert m hv.1 hv.2) result.iberianEnergy }
  | DataTypeMP.energyIberianWithBilateral =>
    { result with bilateralEnergy := r.values.foldl (fun m hv => mapInsert m hv.1 hv.2) result.bilateralEnergy }

/-- One iteration of the line loop of MarginalPriceParser.ParseReader
(src/unnamed/part_006, lines 78-93): blank lines, rows the line parser
rejects, and rows of no interest contribute nothing. -/
def rowRecord (concepts : List DataTypeMP) (date : GoDate) (line : String) :
    Option MarginalPriceRecord :=
  if trimSpace line = "" then none
  else
    match parseDataLine concepts line date with
    | Except.error _ => none
    | Except.ok r => r

/-- Model of MarginalPriceParser.ParseReader (src/unnamed/part_006,
lines 57-100), instrumented to also return the record list the Go loop
accumulates alongside the aggregated result. -/
def parseReaderMP (concepts : List DataTypeMP) (lines : List String) :
    Except ParseErr (MarginalPriceData × List MarginalPriceRecord) :=
  match lines with
  | [] => Except.error ParseErr.emptyFile
  | header :: rest =>
    match parseDateFromHeader header with
    | Except.error e => Except.error e
    | Except.ok date =>
      let records := rest.filterMap (rowRecord concepts date)
      if records.length = 0 then Except.error ParseErr.noValidData
      else Except.ok (records.foldl addRecordToResult (newMarginalPriceData date), records)

lemma parseHourlyValuesAux_eq_nil (mult : ℚ) (i : Nat) (fs : List String)
    (h : ∀ f ∈ fs.take (25 - i), trimSpace f ≠ "" → ParseFloat f = Except.error ()) :
    parseHourlyValuesAux mult i fs = [] := by
  induction fs generalizing i with
  | nil => rfl
  | cons f fs ih =>
    by_cases hi : 25 ≤ i
    · simp [parseHourlyValuesAux, hi]
    · have hf : f ∈ (f :: fs).take (25 - i) := by
        have h25 : 25 - i = (25 - (i + 1)) + 1 := by omega
        rw [h25, List.take_succ_cons]
        exact List.mem_cons_self f _
      have hstep : ∀ g ∈ fs.take (25 - (i + 1)), trimSpace g ≠ "" →
          ParseFloat g = Except.error () := by
        intro g hg hgb
        apply h g ?_ hgb
        have h25 : 25 - i = (25 - (i + 1)) + 1 := by omega
        rw [h25, List.take_succ_cons]
        exact List.mem_cons_of_mem f hg
      by_cases hb : trimSpace f = ""
      · simp [parseHourlyValuesAux, hi, hb, ih (i + 1) hstep]
      · have herr := h f hf hb
        simp [parseHourlyValuesAux, hi, hb, herr, ih (i + 1) hstep]

/-- Claim C6 (amended): in the labeled-row parser, a row with fewer than
2 fields is skipped without aborting the document, and the document
fails with the no-valid-data ParseError exactly when no line after the
header produced a record; but a recognized row whose values all fail to
parse is not skipped: it still contributes one record, with an empty
value map, so such a row alone already prevents the no-valid-data
failure. -/
theorem C6_row_recovery_amended (concepts : List DataTypeMP) (header : String)
    (rest : List String) (date : GoDate)
    (hdr : parseDateFromHeader header = Except.ok date) :
    (parseReaderMP concepts (header :: rest) = Except.error ParseErr.noValidData ↔
      ∀ line ∈ rest, rowRecord concepts date line = none) ∧
    (∀ line ∈ rest, (SplitCSV line).length < 2 → rowRecord concepts date line = none) ∧
    (∀ line conceptType multiplier, trimSpace line ≠ "" →
      mapConcept (trimSpace ((SplitCSV line).getD 0 "")) = some (conceptType, multiplier) →
      conceptType ∈ concepts →
      2 ≤ (SplitCSV line).length →
      (∀ f ∈ ((SplitCSV line).drop 1).take 25, trimSpace f ≠ "" →
        ParseFloat f = Except.error ()) →
      rowRecord concepts date line = some ⟨date, conceptType, []⟩) := by
  refine ⟨?_, ?_, ?_⟩
  · simp only [parseReaderMP, hdr]
    by_cases hrec : (rest.filterMap (rowRecord concepts date)).length = 0
    · simp only [hrec, if_true]
      exact ⟨fun _ => List.filterMap_eq_nil_iff.mp (List.length_eq_zero.mp hrec),
        fun _ => by trivial⟩
    · simp only [hrec, if_false]
      constructor
      · intro hcontra
        exact Except.noConfusion hcontra
      · intro hall
        exact absurd (by rw [List.filterMap_eq_nil_iff.mpr hall]; rfl) hrec
  · intro line _ hlen
    unfold rowRecord
    by_cases hb : trimSpace line = ""
    · simp [hb]
    · simp only [hb, if_false]
      unfold parseDataLine
      simp [hlen]
  · intro line conceptType multiplier hb hmap hmem hlen hfail
    unfold rowRecord
    simp only [hb, if_false]
    unfold parseDataLine
    have hnotlt : ¬ (SplitCSV line).length < 2 := by omega
    simp only [hnotlt, if_false, hmap]
    simp only [hmem, if_true]
    have hnil : parseHourlyValues (SplitCSV line) multiplier = [] := by
      unfold parseHourlyValues
      exact parseHourlyValuesAux_eq_nil multiplier 0 ((SplitCSV line).drop 1)
        (by simpa using hfail)
    rw [hnil]

/-- Claim C6 counterexample: a document whose only data row is
recognized but whose single value fails to parse. Under the claim the
row is skipped, zero records are produced, and the document must fail
with the no-valid-data ParseError; the code instead succeeds and the row
contributes one record with an empty value map. -/
theorem C6_counterexample :
    parseReaderMP defaultConcepts
        ["x 01/01/2006 01/01/2006", "Precio marginal (EUR/MWh);abc"] =
      Except.ok (⟨⟨1, 1, 2006⟩, [], [], [], [], [], []⟩,
        [⟨⟨1, 1, 2006⟩, DataTypeMP.priceSpain, []⟩]) ∧
    ¬ (parseReaderMP defaultConcepts
        ["x 01/01/2006 01/01/2006", "Precio marginal (EUR/MWh);abc"] =
      Except.error ParseErr.noValidData) := by
  constructor
  · rfl
  · decide

/-- Witness for claim C6 at a concrete short row. -/
theorem C6_witness : rowRecord defaultConcepts ⟨1, 1, 2006⟩ "x" = none :=
  (C6_row_recovery_amended defaultConcepts "x 01/01/2006 01/01/2006" ["x"]
    ⟨1, 1, 2006⟩ (by decide)).2.1 "x" (by decide) (by decide)

/-- Claim C8: end-to-end run of the labeled-row parser on a header line
carrying the date token twice followed by the legacy Cent/kWh price row;
the multiplier 10 is applied after decimal-comma normalization, giving
hour 1 the value 66.94 and hour 2 the value 48.88. -/
theorem C8_legacy_cent_unit_end_to_end :
    parseReaderMP defaultConcepts
        ["h 01/01/2006 01/01/2006", "Precio marginal (Cent/kWh);6,694;4,888"] =
      Except.ok (⟨⟨1, 1, 2006⟩,
          [(1, GoFloat.val (66.94 : ℚ)), (2, GoFloat.val (48.88 : ℚ))],
          [], [], [], [], []⟩,
        [⟨⟨1, 1, 2006⟩, DataTypeMP.priceSpain,
          [(1, GoFloat.val (66.94 : ℚ)), (2, GoFloat.val (48.88 : ℚ))]⟩]) := by
  rw [show parseReaderMP defaultConcepts
        ["h 01/01/2006 01/01/2006", "Precio marginal (Cent/kWh);6,694;4,888"] =
      Except.ok (⟨⟨1, 1, 2006⟩,
          [(1, GoFloat.val (decToRat 6 694 3 * 10)), (2, GoFloat.val (decToRat 4 888 3 * 10))],
          [], [], [], [], []⟩,
        [⟨⟨1, 1, 2006⟩, DataTypeMP.priceSpain,
          [(1, GoFloat.val (decToRat 6 694 3 * 10)), (2, GoFloat.val (decToRat 4 888 3 * 10))]⟩])
    from rfl]
  norm_num [decToRat]

/-- Model of Go strconv.Atoi on the numerals the hour parser receives:
an optional sign followed by one or more digits. -/
def goAtoi (cs : List Char) : Option Int :=
  match cs with
  | '+' :: rest =>
    if rest ≠ [] && allDigits rest then some ((natOfDigits rest : Int)) else none
  | '-' :: rest =>
    if rest ≠ [] && allDigits rest then some (-(natOfDigits rest : Int)) else none
  | _ =>
    if cs ≠ [] && allDigits cs then some ((natOfDigits cs : Int)) else none

/-- Model of parsers.ParseHour (src/parsers/utils.go, lines 200-217):
trim, reject blank, parse as integer, and reject hours outside 1 to 25
(25 allowed for daylight-saving change days). -/
def ParseHour (s : String) : Except ParseErr Int :=
  if trimSpace s = "" then Except.error ParseErr.emptyHourValue
  else
    match goAtoi (trimSpace s).toList with
    | none => Except.error ParseErr.invalidHourFormat
    | some hour =>
      if hour < 1 ∨ 25 < hour then Except.error ParseErr.hourOutOfRange
      else Except.ok hour

/-- Model of types.SystemType (src/types/enums.go). -/
inductive SystemType
  | spain
  | portugal
  | iberian
deriving DecidableEq, Repr

/-- Model of types.TechnologyType (src/types/enums.go). -/
inductive TechnologyType
  | coal
  | fuelGas
  | selfProducer
  | nuclear
  | hydro
  | combinedCycle
  | wind
  | thermalSolar
  | photovoltaicSolar
  | residuals
  | importInter
  | importWithoutMIBEL
deriving DecidableEq, Repr

/-- Model of Go strings.ToUpper restricted to the ASCII and Latin-1
letters appearing in the OMIE vocabulary; the division-sign character is
excluded from the Latin-1 uppercase rule exactly as Unicode does. -/
def goToUpperChar (c : Char) : Char :=
  if 'a' ≤ c ∧ c ≤ 'z' then Char.ofNat (c.toNat - 32)
  else if 'à' ≤ c ∧ c ≤ 'þ' ∧ c ≠ '÷' then Char.ofNat (c.toNat - 32)
  else c

def goToUpper (s : String) : String :=
  String.mk (s.toList.map goToUpperChar)

/-- Model of Go strings.ToLower restricted to the same letter ranges. -/
def goToLowerChar (c : Char) : Char :=
  if 'A' ≤ c ∧ c ≤ 'Z' then Char.ofNat (c.toNat + 32)
  else if 'À' ≤ c ∧ c ≤ 'Þ' ∧ c ≠ '×' then Char.ofNat (c.toNat + 32)
  else c

def goToLower (s : String) : String :=
  String.mk (s.toList.map goToLowerChar)

/-- The first list is a leading segment of the second. -/
def startsWithL : List Char → List Char → Bool
  | [], _ => true
  | _ :: _, [] => false
  | a :: as, b :: bs => a = b && startsWithL as bs

/-- Model of Go strings.Contains: the needle occurs as a contiguous
substring of the haystack. -/
def containsSub (needle : List Char) : List Char → Bool
  | [] => needle.isEmpty
  | c :: cs => startsWithL needle (c :: cs) || containsSub needle cs

/-- The technology vocabulary of isKnownTechnology
(src/parsers/marginal_price_comprehensive_test.go, lines 465-483, the
file also holding the EnergyByTechnologyParser source): exact Spanish
column names with their technology identifiers. -/
def knownTechsList : List (String × TechnologyType) :=
  [("CARBÓN", TechnologyType.coal),
   ("FUEL-GAS", TechnologyType.fuelGas),
   ("AUTOPRODUCTOR", TechnologyType.selfProducer),
   ("NUCLEAR", TechnologyType.nuclear),
   ("HIDRÁULICA", TechnologyType.hydro),
   ("CICLO COMBINADO", TechnologyType.combinedCycle),
   ("EÓLICA", TechnologyType.wind),
   ("SOLAR TÉRMICA", TechnologyType.thermalSolar),
   ("SOLAR FOTOVOLTAICA", TechnologyType.photovoltaicSolar),
   ("COGENERACIÓN/RESIDUOS/MINI HIDRA", TechnologyType.residuals),
   ("IMPORTACIÓN INTER.", TechnologyType.importInter),
   ("IMPORTACIÓN INTER. SIN MIBEL", TechnologyType.importWithoutMIBEL)]

/-- Model of isKnownTechnology: exact lookup of the trimmed field in the
vocabulary map. -/
def isKnownTechnology (field : String) : Option TechnologyType :=
  (knownTechsList.find? (fun e => e.1 == field)).map (fun e => e.2)

/-- The five names containsTechnologyNames checks
(src/parsers/marginal_price_comprehensive_test.go, line 450). -/
def headerTechNames : List String :=
  ["CARBÓN", "NUCLEAR", "EÓLICA", "SOLAR", "HIDRÁULICA"]

/-- Model of EnergyByTechnologyParser.containsTechnologyNames: a line is
header-like when some field, uppercased and trimmed, contains one of the
five names as a substring. -/
def containsTechnologyNames (fields : List String) : Bool :=
  fields.any (fun f =>
    headerTechNames.any (fun tech =>
      containsSub tech.toList (trimSpace (goToUpper f)).toList))

/-- The field-index to technology mapping built from a detected header
line (src/parsers/marginal_price_comprehensive_test.go, lines 430-439):
a column enters the schema only when its trimmed field is an exact key
of the vocabulary map. -/
def buildMapping (fields : List String) : List (Nat × TechnologyType) :=
  fields.enum.filterMap (fun jf =>
    (isKnownTechnology (trimSpace jf.2)).map (fun t => (jf.1, t)))

/-- Model of EnergyByTechnologyParser.parseColumnHeaders: scan lines
top-to-bottom, skip lines with fewer than 3 fields, and return the
mapping and index of the first header-like line; none models the Go
result of nil mapping and index -1. -/
def parseColumnHeadersAux : Nat → List String → Option (List (Nat × TechnologyType) × Nat)
  | _, [] => none
  | i, line :: rest =>
    if (SplitCSV line).length < 3 then parseColumnHeadersAux (i + 1) rest
    else if containsTechnologyNames (SplitCSV line) then some (buildMapping (SplitCSV line), i)
    else parseColumnHeadersAux (i + 1) rest

def parseColumnHeaders (lines : List String) : Option (List (Nat × TechnologyType) × Nat) :=
  parseColumnHeadersAux 0 lines

/-- Model of types.TechnologyEnergy: the twelve per-technology float64
fields are modelled as one total function from technology identifiers,
each field initially the Go zero value 0.0. -/
structure TechnologyEnergy where
  date : GoDate
  hour : Int
  system : SystemType
  values : TechnologyType → GoFloat

/-- Model of EnergyByTechnologyParser.assignTechnologyValue: set the
field of one technology. -/
def assignTechnologyValue (r : TechnologyEnergy) (t : TechnologyType) (v : GoFloat) :
    TechnologyEnergy :=
  { r with values := fun t2 => if t2 = t then v else r.values t2 }

/-- One iteration of the technology-value loop of
EnergyByTechnologyParser.parseDataLine: schema columns beyond the field
count are skipped, fields the float parser rejects are skipped, parsed
values (the NaN marker for blank fields) are assigned. -/
def techStep (fields : List String) (r : TechnologyEnergy) (ct : Nat × TechnologyType) :
    TechnologyEnergy :=
  if fields.length ≤ ct.1 then r
  else
    match ParseFloat (fields.getD ct.1 "") with
    | Except.error _ => r
    | Except.ok v => assignTechnologyValue r ct.2 v

/-- Model of EnergyByTechnologyParser.parseDataLine
(src/parsers/marginal_price_comprehensive_test.go, lines 486-521). The
Go loop ranges over a map from column index to technology; the model
folds over the association list representing that map. -/
def parseDataLineTech (line : String) (date : GoDate) (system : SystemType)
    (columnMapping : List (Nat × TechnologyType)) : Except ParseErr TechnologyEnergy :=
  if (SplitCSV line).length < 3 then Except.error ParseErr.insufficientFields
  else
    match ParseHour ((SplitCSV line).getD 1 "") with
    | Except.error e => Except.error e
    | Except.ok hour =>
      Except.ok (columnMapping.foldl (techStep (SplitCSV line))
        ⟨date, hour, system, fun _ => GoFloat.val 0⟩)

/-- Model of EnergyByTechnologyParser.parseHeader: the last date token
of the first line is the document date, and the system is chosen by
case-insensitive substring search for the Spanish or Portuguese keyword,
defaulting to the Iberian system. -/
def parseHeaderTech (headerLine : String) : Except ParseErr (GoDate × SystemType) :=
  let ms := findDateMatches headerLine.toList
  if ms.length = 0 then Except.error ParseErr.noDateInHeader
  else
    match ParseDate (String.mk (ms.getLastD [])) with
    | Except.error e => Except.error e
    | Except.ok date =>
      let lower := goToLower headerLine
      let system :=
        if containsSub "español".toList lower.toList then SystemType.spain
        else if containsSub "portugués".toList lower.toList then SystemType.portugal
        else SystemType.iberian
      Except.ok (date, system)

/-- Model of types.TechnologyEnergyDay. -/
structure TechnologyEnergyDay where
  date : GoDate
  system : SystemType
  records : List TechnologyEnergy

/-- One iteration of the data-line loop of
EnergyByTechnologyParser.ParseReader: lines are trimmed first, blank
lines and lines the row parser rejects are skipped. -/
def techRowRecord (date : GoDate) (system : SystemType)
    (columnMapping : List (Nat × TechnologyType)) (line : String) :
    Option TechnologyEnergy :=
  if trimSpace line = "" then none
  else
    match parseDataLineTech (trimSpace line) date system columnMapping with
    | Except.error _ => none
    | Except.ok r => some r

/-- Model of EnergyByTechnologyParser.ParseReader
(src/parsers/marginal_price_comprehensive_test.go, lines 345-392). -/
def parseReaderTech (lines : List String) : Except ParseErr TechnologyEnergyDay :=
  if lines.length < 3 then Except.error ParseErr.insufficientLines
  else
    match parseHeaderTech (lines.getD 0 "") with
    | Except.error e => Except.error e
    | Except.ok (date, system) =>
      match parseColumnHeaders lines with
      | none => Except.error ParseErr.noTechnologyColumns
      | some (columnMapping, headerLineIndex) =>
        if columnMapping.length = 0 then Except.error ParseErr.noTechnologyColumns
        else
          let records := (lines.drop (headerLineIndex + 1)).filterMap
            (techRowRecord date system columnMapping)
          if records.length = 0 then Except.error ParseErr.noValidDataRecords
          else Except.ok ⟨date, system, records⟩

lemma assocFind_iff_mem {β : Type} [DecidableEq β] (l : List (String × β))
    (hnd : (l.map Prod.fst).Nodup) (k : String) (t : β) :
    ((l.find? (fun e => e.1 == k)).map (fun e => e.2) = some t) ↔ (k, t) ∈ l := by
  induction l with
  | nil => simp
  | cons e l ih =>
    obtain ⟨ke, te⟩ := e
    simp only [List.map_cons, List.nodup_cons] at hnd
    obtain ⟨hk, hnd2⟩ := hnd
    by_cases hke : ke = k
    · subst hke
      have hfind : (((ke, te) :: l).find? (fun e => e.1 == ke)) = some (ke, te) := by
        simp [List.find?]
      rw [hfind]
      simp only [Option.map_some, List.mem_cons]
      constructor
      · intro h
        have h2 : te = t := by simpa using h
        subst h2
        exact Or.inl rfl
      · intro h
        rcases h with h | h
        · have h2 : t = te := by simpa using congrArg Prod.snd h
          subst h2
          simp
        · exact absurd (List.mem_map_of_mem Prod.fst h) hk
    · have hbeq : ((ke, te).1 == k) = false := by
        simp [hke]
      simp only [List.find?, hbeq, List.mem_cons]
      rw [ih hnd2]
      constructor
      · intro h
        right
        exact h
      · intro h
        cases h with
        | inl h =>
          injection h with h1 h2
          exact absurd h1.symm hke
        | inr h => exact h

/-- Claim C7 counterexample: in the line with fields x, y, nuclear, the
third field contains the vocabulary name NUCLEAR case-insensitively, so
under the claim column index 2 must enter the schema; the code detects
the line as a header (first conjunct) but produces an empty schema
(second conjunct), because schema entries require an exact,
case-sensitive match of the trimmed field. -/
theorem C7_counterexample :
    containsTechnologyNames (SplitCSV "x;y;nuclear") = true ∧
    parseColumnHeaders ["x;y;nuclear"] = some ([], 0) := by
  constructor
  · decide
  · decide

/-- Claim C7 (amended): header-line detection uses case-insensitive
substring matching against five vocabulary names, but a column index
enters the discovered schema exactly when the trimmed header field is
equal, case-sensitively and in full, to one of the twelve vocabulary
names; fields merely containing a name are ignored. -/
theorem C7_schema_exact_match (fields : List String) (j : Nat) (t : TechnologyType) :
    (j, t) ∈ buildMapping fields ↔
      ∃ f, fields[j]? = some f ∧ (trimSpace f, t) ∈ knownTechsList := by
  unfold buildMapping
  rw [List.mem_filterMap]
  constructor
  · rintro ⟨⟨j2, f⟩, hmem, hmap⟩
    cases hknown : isKnownTechnology (trimSpace f) with
    | none => rw [hknown] at hmap; exact Option.noConfusion hmap
    | some t2 =>
      rw [hknown] at hmap
      injection hmap with hmap
      injection hmap with h1 h2
      subst h1
      subst h2
      refine ⟨f, List.mk_mem_enum_iff_getElem?.mp hmem, ?_⟩
      have hnd : (knownTechsList.map Prod.fst).Nodup := by decide
      exact (assocFind_iff_mem knownTechsList hnd (trimSpace f) t2).mp hknown
  · rintro ⟨f, hget, hmem⟩
    refine ⟨(j, f), List.mk_mem_enum_iff_getElem?.mpr hget, ?_⟩
    have hnd : (knownTechsList.map Prod.fst).Nodup := by decide
    have hknown : isKnownTechnology (trimSpace f) = some t :=
      (assocFind_iff_mem knownTechsList hnd (trimSpace f) t).mpr hmem
    rw [hknown]
    rfl

/-- Witness for claim C7 at a concrete header line with an exact match
at column 2. -/
theorem C7_witness :
    (2, TechnologyType.nuclear) ∈ buildMapping (SplitCSV "x;y;NUCLEAR") :=
  (C7_schema_exact_match (SplitCSV "x;y;NUCLEAR") 2 TechnologyType.nuclear).mpr
    ⟨"NUCLEAR", by decide, by decide⟩

lemma parseHourlyValuesAux_bounds (mult : ℚ) (i : Nat) (fs : List String) :
    ∀ hv ∈ parseHourlyValuesAux mult i fs, i + 1 ≤ hv.1 ∧ hv.1 ≤ 25 := by
  induction fs generalizing i with
  | nil => intro hv h; simp [parseHourlyValuesAux] at h
  | cons f fs ih =>
    intro hv h
    by_cases hi : 25 ≤ i
    · simp [parseHourlyValuesAux, hi] at h
    · by_cases hb : trimSpace f = ""
      · simp only [parseHourlyValuesAux, hi, if_false, hb, if_true] at h
        have := ih (i + 1) hv h
        omega
      · simp only [parseHourlyValuesAux, hi, if_false, hb] at h
        cases hp : ParseFloat f with
        | error e =>
          rw [hp] at h
          have := ih (i + 1) hv h
          omega
        | ok v =>
          rw [hp] at h
          rcases List.mem_cons.mp h with h | h
          · subst h
            omega
          · have := ih (i + 1) hv h
            omega

lemma ParseHour_ok_bounds (s : String) (h : Int) (hok : ParseHour s = Except.ok h) :
    1 ≤ h ∧ h ≤ 25 := by
  unfold ParseHour at hok
  by_cases hb : trimSpace s = ""
  · rw [if_pos hb] at hok
    exact Except.noConfusion hok
  · rw [if_neg hb] at hok
    cases ha : goAtoi (trimSpace s).toList with
    | none => rw [ha] at hok; exact Except.noConfusion hok
    | some hour =>
      rw [ha] at hok
      dsimp only at hok
      by_cases hr : hour < 1 ∨ 25 < hour
      · rw [if_pos hr] at hok
        exact Except.noConfusion hok
      · rw [if_neg hr] at hok
        injection hok with hok
        subst hok
        omega

lemma techFold_hour (fields : List String) (l : List (Nat × TechnologyType))
    (r : TechnologyEnergy) :
    (l.foldl (techStep fields) r).hour = r.hour := by
  induction l generalizing r with
  | nil => rfl
  | cons ct l ih =>
    rw [List.foldl_cons, ih]
    unfold techStep
    by_cases hskip : fields.length ≤ ct.1
    · rw [if_pos hskip]
    · rw [if_neg hskip]
      cases ParseFloat (fields.getD ct.1 "") with
      | error e => rfl
      | ok v => rfl

lemma parseDataLineTech_hour (line : String) (date : GoDate) (system : SystemType)
    (mapping : List (Nat × TechnologyType)) (r : TechnologyEnergy)
    (hok : parseDataLineTech line date system mapping = Except.ok r) :
    ParseHour ((SplitCSV line).getD 1 "") = Except.ok r.hour := by
  unfold parseDataLineTech at hok
  by_cases h3 : (SplitCSV line).length < 3
  · rw [if_pos h3] at hok
    exact Except.noConfusion hok
  · rw [if_neg h3] at hok
    cases hh : ParseHour ((SplitCSV line).getD 1 "") with
    | error e => rw [hh] at hok; exact Except.noConfusion hok
    | ok hour =>
      rw [hh] at hok
      injection hok with hok
      subst hok
      rw [techFold_hour]

/-- Claim C9: hour indices of emitted records lie in 1 to 25 in both
parser variants. First conjunct: the hour parser only accepts hours in
range. Second conjunct: every hour position of a record emitted by the
labeled-row line parser is between 1 and 25, positions beyond 25 being
ignored. Third conjunct: every record of a parsed tabular document has
its hour in range, rows with out-of-range hours having been skipped. -/
theorem C9_hours_in_1_25 :
    (∀ (s : String) (h : Int), ParseHour s = Except.ok h → 1 ≤ h ∧ h ≤ 25) ∧
    (∀ concepts line date r, parseDataLine concepts line date = Except.ok (some r) →
      ∀ hv ∈ r.values, 1 ≤ hv.1 ∧ hv.1 ≤ 25) ∧
    (∀ lines day, parseReaderTech lines = Except.ok day →
      ∀ r ∈ day.records, 1 ≤ r.hour ∧ r.hour ≤ 25) := by
  refine ⟨ParseHour_ok_bounds, ?_, ?_⟩
  · intro concepts line date r hok hv hmem
    unfold parseDataLine at hok
    by_cases h2 : (SplitCSV line).length < 2
    · rw [if_pos h2] at hok
      exact Except.noConfusion hok
    · rw [if_neg h2] at hok
      cases hm : mapConcept (trimSpace ((SplitCSV line).getD 0 "")) with
      | none =>
        rw [hm] at hok
        injection hok with hok
        exact Option.noConfusion hok
      | some p =>
        obtain ⟨conceptType, multiplier⟩ := p
        rw [hm] at hok
        dsimp only at hok
        by_cases hmemc : conceptType ∈ concepts
        · rw [if_pos hmemc] at hok
          injection hok with hok
          injection hok with hok
          subst hok
          have := parseHourlyValuesAux_bounds multiplier 0 ((SplitCSV line).drop 1) hv hmem
          omega
        · rw [if_neg hmemc] at hok
          injection hok with hok
          exact Option.noConfusion hok
  · intro lines day hok r hmem
    unfold parseReaderTech at hok
    by_cases h3 : lines.length < 3
    · rw [if_pos h3] at hok
      exact Except.noConfusion hok
    · rw [if_neg h3] at hok
      cases hh : parseHeaderTech (lines.getD 0 "") with
      | error e => rw [hh] at hok; exact Except.noConfusion hok
      | ok ds =>
        obtain ⟨date, system⟩ := ds
        rw [hh] at hok
        dsimp only at hok
        cases hc : parseColumnHeaders lines with
        | none => rw [hc] at hok; exact Except.noConfusion hok
        | some mi =>
          obtain ⟨columnMapping, headerLineIndex⟩ := mi
          rw [hc] at hok
          dsimp only at hok
          by_cases hz : columnMapping.length = 0
          · rw [if_pos hz] at hok
            exact Except.noConfusion hok
          · rw [if_neg hz] at hok
            by_cases hrz : ((lines.drop (headerLineIndex + 1)).filterMap
                (techRowRecord date system columnMapping)).length = 0
            · rw [if_pos hrz] at hok
              exact Except.noConfusion hok
            · rw [if_neg hrz] at hok
              injection hok with hok
              subst hok
              simp only at hmem
              obtain ⟨line, _, hrow⟩ := List.mem_filterMap.mp hmem
              unfold techRowRecord at hrow
              by_cases hb : trimSpace line = ""
              · rw [if_pos hb] at hrow
                exact Option.noConfusion hrow
              · rw [if_neg hb] at hrow
                cases hdl : parseDataLineTech (trimSpace line) date system columnMapping with
                | error e => rw [hdl] at hrow; exact Option.noConfusion hrow
                | ok r2 =>
                  rw [hdl] at hrow
                  injection hrow with hrow
                  subst hrow
                  exact ParseHour_ok_bounds _ _ (parseDataLineTech_hour _ _ _ _ _ hdl)

/-- Witness for claim C9 at a concrete hour string, line and document. -/
theorem C9_witness : 1 ≤ (5 : Int) ∧ (5 : Int) ≤ 25 :=
  C9_hours_in_1_25.1 "5" 5 rfl

lemma techFold_untouched (fields : List String) (l : List (Nat × TechnologyType))
    (r : TechnologyEnergy) (t : TechnologyType) (ht : t ∉ l.map Prod.snd) :
    (l.foldl (techStep fields) r).values t = r.values t := by
  induction l generalizing r with
  | nil => rfl
  | cons ct l ih =>
    simp only [List.map_cons, List.mem_cons] at ht
    push_neg at ht
    obtain ⟨hne, ht2⟩ := ht
    rw [List.foldl_cons, ih _ ht2]
    unfold techStep
    by_cases hskip : fields.length ≤ ct.1
    · rw [if_pos hskip]
    · rw [if_neg hskip]
      cases ParseFloat (fields.getD ct.1 "") with
      | error e => rfl
      | ok v =>
        unfold assignTechnologyValue
        simp only
        rw [if_neg hne]

lemma techFold_blank (fields : List String) (l : List (Nat × TechnologyType))
    (r : TechnologyEnergy) (j : Nat) (t : TechnologyType)
    (hnd : (l.map Prod.snd).Nodup) (hmem : (j, t) ∈ l) (hj : j < fields.length)
    (hb : trimSpace (fields.getD j "") = "") :
    (l.foldl (techStep fields) r).values t = GoFloat.nan := by
  induction l generalizing r with
  | nil => simp at hmem
  | cons ct l ih =>
    simp only [List.map_cons, List.nodup_cons] at hnd
    obtain ⟨hhead, hnd2⟩ := hnd
    rcases List.mem_cons.mp hmem with hmem | hmem
    · subst hmem
      rw [List.foldl_cons]
      have hstep : techStep fields r (j, t) = assignTechnologyValue r t GoFloat.nan := by
        unfold techStep
        rw [if_neg (by omega)]
        have hpf : ParseFloat (fields.getD j "") = Except.ok GoFloat.nan := by
          unfold ParseFloat
          rw [if_pos hb]
        rw [hpf]
      rw [hstep, techFold_untouched fields l _ t hhead]
      unfold assignTechnologyValue
      simp
    · have hne : ct.2 ≠ t := by
        intro hcontra
        apply hhead
        rw [hcontra]
        exact List.mem_map_of_mem Prod.snd hmem
      rw [List.foldl_cons]
      exact ih _ hnd2 hmem

/-- Claim C10: in the tabular parser, when the schema maps pairwise
distinct technologies, a schema-mapped column whose field exists and is
blank leaves the NaN missing marker in that technology field of the
emitted record, while every technology absent from the schema retains
the Go zero value 0.0; blank-means-missing is therefore distinguishable
from zero only at schema-mapped columns. -/
theorem C10_blank_is_missing_zero_elsewhere
    (line : String) (date : GoDate) (system : SystemType)
    (columnMapping : List (Nat × TechnologyType)) (r : TechnologyEnergy)
    (hnd : (columnMapping.map Prod.snd).Nodup)
    (hok : parseDataLineTech line date system columnMapping = Except.ok r) :
    (∀ j t, (j, t) ∈ columnMapping → j < (SplitCSV line).length →
      trimSpace ((SplitCSV line).getD j "") = "" → r.values t = GoFloat.nan) ∧
    (∀ t, t ∉ columnMapping.map Prod.snd → r.values t = GoFloat.val 0) := by
  unfold parseDataLineTech at hok
  by_cases h3 : (SplitCSV line).length < 3
  · rw [if_pos h3] at hok
    exact Except.noConfusion hok
  · rw [if_neg h3] at hok
    cases hh : ParseHour ((SplitCSV line).getD 1 "") with
    | error e =>
      rw [hh] at hok
      exact Except.noConfusion hok
    | ok hour =>
      rw [hh] at hok
      dsimp only at hok
      injection hok with hok
      subst hok
      constructor
      · intro j t hmem hj hb
        exact techFold_blank (SplitCSV line) columnMapping _ j t hnd hmem hj hb
      · intro t ht
        rw [techFold_untouched (SplitCSV line) columnMapping _ t ht]

/-- Witness for claim C10 at a concrete row with an hour field, a blank
schema-mapped third column, and an unmapped technology. -/
theorem C10_witness :
    ∃ r, parseDataLineTech "x;1; " ⟨1, 1, 2006⟩ SystemType.iberian
        [(2, TechnologyType.nuclear)] = Except.ok r ∧
      r.values TechnologyType.nuclear = GoFloat.nan ∧
      r.values TechnologyType.coal = GoFloat.val 0 := by
  have hok : parseDataLineTech "x;1; " ⟨1, 1, 2006⟩ SystemType.iberian
      [(2, TechnologyType.nuclear)] = Except.ok
      ⟨⟨1, 1, 2006⟩, 1, SystemType.iberian,
        fun t2 => if t2 = TechnologyType.nuclear then GoFloat.nan else GoFloat.val 0⟩ := rfl
  have h := C10_blank_is_missing_zero_elsewhere "x;1; " ⟨1, 1, 2006⟩ SystemType.iberian
    [(2, TechnologyType.nuclear)] _ (by decide) hok
  exact ⟨_, hok, h.1 2 TechnologyType.nuclear (by decide) (by decide) rfl,
    h.2 TechnologyType.coal (by decide)⟩

/-- Error codes of types.OMIEError as referenced by the downloader
(src/unnamed/part_003); the error struct itself lives in the types
package and is reconstructed from its call sites. -/
inductive ErrCode
  | network
  | notFound
  | download
  | parse
deriving DecidableEq, Repr

/-- A Go error value as the downloader builds them: a plain error, an
OMIEError with nil cause, or an OMIEError wrapping a cause. -/
inductive GoErr
  | simple (msg : String)
  | omie (code : ErrCode) (msg : String)
  | omieWrap (code : ErrCode) (msg : String) (cause : GoErr)
deriving DecidableEq, Repr

/-- Top-level error code of an optional error. -/
def errCodeOf : Option GoErr → Option ErrCode
  | none => none
  | some (GoErr.simple _) => none
  | some (GoErr.omie code _) => some code
  | some (GoErr.omieWrap code _ _) => some code

/-- Model of downloaders.DownloadConfig (src/downloaders/downloader.go);
durations are abstract time units. -/
structure DownloadConfig where
  maxRetries : Nat
  retryDelay : Nat
  requestTimeout : Nat
  maxConcurrent : Nat
deriving DecidableEq, Repr

/-- Outcome of one fetch attempt as the external HTTP collaborator
reports it: a response with a status code, or a transport error from the
client. -/
inductive FetchAttempt
  | status (code : Nat)
  | transportError (e : GoErr)
deriving DecidableEq, Repr

/-- Model of downloaders.ResponseResult: the response is the index of
the successful attempt when there is one (standing for its body), the
date is the day number of the requested date; the URL string is excluded
glue and not modelled. -/
structure ResponseResult where
  response : Option Nat
  date : Nat
  error : Option GoErr
deriving DecidableEq, Repr

/-- The error downloadSingleDate records for a failed attempt
(src/unnamed/part_003, lines 169-196): a not-found status becomes the
NotFoundError, any other non-OK status becomes a NetworkError, and a
transport error is kept as is. -/
def classifyAttempt (date : Nat) : FetchAttempt → GoErr
  | FetchAttempt.status code =>
    if code = 404 then
      GoErr.omie ErrCode.notFound ("data not available for date " ++ toString date)
    else GoErr.omie ErrCode.network ("HTTP " ++ toString code)
  | FetchAttempt.transportError e => e

/-- The final failure error of downloadSingleDate (src/unnamed/part_003,
lines 199-203): a DownloadError whose message reports the configured
maxRetries and which wraps the last attempt error when there is one. -/
def wrapDownload (cfg : DownloadConfig) : Option GoErr → GoErr
  | some e =>
    GoErr.omieWrap ErrCode.download
      ("failed after " ++ toString cfg.maxRetries ++ " attempts") e
  | none =>
    GoErr.omie ErrCode.download
      ("failed after " ++ toString cfg.maxRetries ++ " attempts")

/-- Instrumented result of one downloadSingleDate run: the returned
ResponseResult, the number of fetch attempts performed, and the list of
backoff delays waited, in order. -/
structure DownloadTrace where
  result : ResponseResult
  attemptsMade : Nat
  waits : List Nat
deriving DecidableEq, Repr

/-- Model of the retry loop of GeneralDownloader.downloadSingleDate
(src/unnamed/part_003, lines 143-204) in the absence of cancellation:
remaining counts the loop iterations still allowed, attempt is the Go
loop counter, and lastErr the last recorded attempt error. Before every
attempt except the first the worker waits retryDelay times the attempt
number. A 200 status returns a success result; a 404 status and every
other failure record an error and continue to the next attempt. -/
def downloadAux (cfg : DownloadConfig) (fetch : Nat → FetchAttempt) (date : Nat) :
    Nat → Nat → Option GoErr → DownloadTrace
  | 0, _, lastErr => ⟨⟨none, date, some (wrapDownload cfg lastErr)⟩, 0, []⟩
  | remaining + 1, attempt, _lastErr =>
    let wait : List Nat := if attempt = 0 then [] else [cfg.retryDelay * attempt]
    match fetch attempt with
    | FetchAttempt.status code =>
      if code = 200 then ⟨⟨some attempt, date, none⟩, 1, wait⟩
      else
        let rest := downloadAux cfg fetch date remaining (attempt + 1)
          (some (classifyAttempt date (FetchAttempt.status code)))
        ⟨rest.result, rest.attemptsMade + 1, wait ++ rest.waits⟩
    | FetchAttempt.transportError e =>
      let rest := downloadAux cfg fetch date remaining (attempt + 1)
        (some (classifyAttempt date (FetchAttempt.transportError e)))
      ⟨rest.result, rest.attemptsMade + 1, wait ++ rest.waits⟩

/-- Model of GeneralDownloader.downloadSingleDate: the Go loop runs
attempt = 0 up to and including cfg.maxRetries, hence maxRetries + 1
iterations. -/
def downloadSingleDate (cfg : DownloadConfig) (fetch : Nat → FetchAttempt) (date : Nat) :
    DownloadTrace :=
  downloadAux cfg fetch date (cfg.maxRetries + 1) 0 none

lemma downloadAux_date (cfg : DownloadConfig) (fetch : Nat → FetchAttempt) (date : Nat) :
    ∀ remaining attempt lastErr,
      (downloadAux cfg fetch date remaining attempt lastErr).result.date = date := by
  intro remaining
  induction remaining with
  | zero => intro attempt lastErr; rfl
  | succ n ih =>
    intro attempt lastErr
    unfold downloadAux
    cases fetch attempt with
    | status code =>
      by_cases hc : code = 200
      · simp only [hc, if_true]
      · simp only [hc, if_false]
        exact ih (attempt + 1) _
    | transportError e =>
      exact ih (attempt + 1) _

lemma downloadAux_attempts_le (cfg : DownloadConfig) (fetch : Nat → FetchAttempt)
    (date : Nat) : ∀ remaining attempt lastErr,
      (downloadAux cfg fetch date remaining attempt lastErr).attemptsMade ≤ remaining := by
  intro remaining
  induction remaining with
  | zero => intro attempt lastErr; exact Nat.le_refl 0
  | succ n ih =>
    intro attempt lastErr
    unfold downloadAux
    cases fetch attempt with
    | status code =>
      by_cases hc : code = 200
      · simp only [hc, if_true]
        omega
      · simp only [hc, if_false]
        have := ih (attempt + 1) (some (classifyAttempt date (FetchAttempt.status code)))
        omega
    | transportError e =>
      have := ih (attempt + 1) (some (classifyAttempt date (FetchAttempt.transportError e)))
      simp only
      omega

lemma downloadAux_fail_main (cfg : DownloadConfig) (fetch : Nat → FetchAttempt)
    (date : Nat) (hfail : ∀ n, fetch n ≠ FetchAttempt.status 200) :
    ∀ remaining attempt lastErr, 0 < remaining →
      (downloadAux cfg fetch date remaining attempt lastErr).attemptsMade = remaining ∧
      (downloadAux cfg fetch date remaining attempt lastErr).result =
        ⟨none, date, some (wrapDownload cfg
          (some (classifyAttempt date (fetch (attempt + remaining - 1)))))⟩ := by
  intro remaining
  induction remaining with
  | zero => intro attempt lastErr h; omega
  | succ n ih =>
    intro attempt lastErr _
    have hnot200 : ∀ code, fetch attempt = FetchAttempt.status code → code ≠ 200 := by
      intro code hcode hcontra
      exact hfail attempt (by rw [hcode, hcontra])
    unfold downloadAux
    cases hf : fetch attempt with
    | status code =>
      have hc : code ≠ 200 := hnot200 code hf
      simp only [hc, if_false]
      by_cases hn : n = 0
      · subst hn
        simp only [downloadAux]
        constructor
        · trivial
        · rw [show attempt + (0 + 1) - 1 = attempt by omega, hf]
      · obtain ⟨ha, hr⟩ := ih (attempt + 1) (some (classifyAttempt date (FetchAttempt.status code))) (by omega)
        constructor
        · rw [ha]
        · rw [hr]
          rw [show attempt + 1 + n - 1 = attempt + (n + 1) - 1 by omega]
    | transportError e =>
      simp only
      by_cases hn : n = 0
      · subst hn
        simp only [downloadAux]
        constructor
        · trivial
        · rw [show attempt + (0 + 1) - 1 = attempt by omega, hf]
      · obtain ⟨ha, hr⟩ := ih (attempt + 1) (some (classifyAttempt date (FetchAttempt.transportError e))) (by omega)
        constructor
        · rw [ha]
        · rw [hr]
          rw [show attempt + 1 + n - 1 = attempt + (n + 1) - 1 by omega]

lemma downloadAux_waits_pos (cfg : DownloadConfig) (fetch : Nat → FetchAttempt)
    (date : Nat) : ∀ remaining attempt lastErr, 1 ≤ attempt →
      (downloadAux cfg fetch date remaining attempt lastErr).waits =
        (List.range' attempt
          (downloadAux cfg fetch date remaining attempt lastErr).attemptsMade).map
          (fun k => cfg.retryDelay * k) := by
  intro remaining
  induction remaining with
  | zero => intro attempt lastErr _; rfl
  | succ n ih =>
    intro attempt lastErr hattempt
    have ha0 : ¬ attempt = 0 := by omega
    unfold downloadAux
    cases fetch attempt with
    | status code =>
      by_cases hc : code = 200
      · simp only [hc, if_true, ha0, if_false]
        rfl
      · simp only [hc, if_false, ha0]
        rw [ih (attempt + 1) _ (by omega)]
        rfl
    | transportError e =>
      simp only [ha0, if_false]
      rw [ih (attempt + 1) _ (by omega)]
      rfl

lemma downloadSingleDate_waits (cfg : DownloadConfig) (fetch : Nat → FetchAttempt)
    (date : Nat) :
    (downloadSingleDate cfg fetch date).waits =
      (List.range' 1 ((downloadSingleDate cfg fetch date).attemptsMade - 1)).map
        (fun k => cfg.retryDelay * k) := by
  unfold downloadSingleDate downloadAux
  cases fetch 0 with
  | status code =>
    by_cases hc : code = 200
    · simp [hc]
    · have hw := downloadAux_waits_pos cfg fetch date cfg.maxRetries 1
        (some (classifyAttempt date (FetchAttempt.status code))) (by omega)
      simp [hc, hw]
  | transportError e =>
    have hw := downloadAux_waits_pos cfg fetch date cfg.maxRetries 1
      (some (classifyAttempt date (FetchAttempt.transportError e))) (by omega)
    simp [hw]

/-- Claim C3 (amended): a worker performs at most maxRetries + 1 fetch
attempts per date (the Go loop runs attempt = 0 up to and including
maxRetries), waiting retryDelay times the attempt number between
consecutive attempts (linear backoff); when every attempt fails, all
maxRetries + 1 attempts are performed and the outcome is a Failure with
no response whose error wraps the classification of the last attempt
and whose message reports the configured maxRetries. -/
theorem C3_retry_budget_and_backoff
    (cfg : DownloadConfig) (fetch : Nat → FetchAttempt) (date : Nat) :
    (downloadSingleDate cfg fetch date).attemptsMade ≤ cfg.maxRetries + 1 ∧
    (downloadSingleDate cfg fetch date).waits =
      (List.range' 1 ((downloadSingleDate cfg fetch date).attemptsMade - 1)).map
        (fun k => cfg.retryDelay * k) ∧
    ((∀ n, fetch n ≠ FetchAttempt.status 200) →
      (downloadSingleDate cfg fetch date).attemptsMade = cfg.maxRetries + 1 ∧
      (downloadSingleDate cfg fetch date).result =
        ⟨none, date, some (GoErr.omieWrap ErrCode.download
          ("failed after " ++ toString cfg.maxRetries ++ " attempts")
          (classifyAttempt date (fetch cfg.maxRetries)))⟩) := by
  refine ⟨downloadAux_attempts_le cfg fetch date _ 0 none,
    downloadSingleDate_waits cfg fetch date, fun hfail => ?_⟩
  obtain ⟨ha, hr⟩ := downloadAux_fail_main cfg fetch date hfail (cfg.maxRetries + 1) 0 none
    (by omega)
  refine ⟨ha, ?_⟩
  rw [show downloadSingleDate cfg fetch date =
    downloadAux cfg fetch date (cfg.maxRetries + 1) 0 none from rfl, hr]
  rw [show 0 + (cfg.maxRetries + 1) - 1 = cfg.maxRetries by omega]
  rfl

/-- Claim C3 counterexample: with maxRetries = 1 and a permanently
failing fetch, the worker performs 2 fetch attempts, exceeding the
claimed bound of at most maxRetries = 1 attempts. -/
theorem C3_counterexample :
    ¬ ((downloadSingleDate ⟨1, 7, 30, 5⟩ (fun _ => FetchAttempt.status 500) 0).attemptsMade ≤
        (⟨1, 7, 30, 5⟩ : DownloadConfig).maxRetries) := by
  decide

/-- Witness for claim C3 at a concrete configuration and fetch. -/
theorem C3_witness :
    (downloadSingleDate ⟨3, 1, 30, 5⟩ (fun _ => FetchAttempt.status 500) 7).attemptsMade =
      (⟨3, 1, 30, 5⟩ : DownloadConfig).maxRetries + 1 :=
  ((C3_retry_budget_and_backoff ⟨3, 1, 30, 5⟩ (fun _ => FetchAttempt.status 500) 7).2.2
    (fun _ => by decide)).1

/-- Claim C1 (amended): a date whose every fetch attempt returns the
permanent not-found status is not surfaced immediately: the not-found is
retried like a transient failure, all maxRetries + 1 attempts are
performed, and the single outcome for the date is a Failure whose error
is a DownloadError reporting maxRetries attempts and wrapping the
NotFoundError as the last attempt error, not an outcome tagged
NotFoundError with attempt count 1. -/
theorem C1_notfound_retried_not_immediate
    (cfg : DownloadConfig) (fetch : Nat → FetchAttempt) (date : Nat)
    (hnf : ∀ n, fetch n = FetchAttempt.status 404) :
    (downloadSingleDate cfg fetch date).attemptsMade = cfg.maxRetries + 1 ∧
    (downloadSingleDate cfg fetch date).result =
      ⟨none, date, some (GoErr.omieWrap ErrCode.download
        ("failed after " ++ toString cfg.maxRetries ++ " attempts")
        (GoErr.omie ErrCode.notFound ("data not available for date " ++ toString date)))⟩ ∧
    errCodeOf (downloadSingleDate cfg fetch date).result.error = some ErrCode.download := by
  have hfail : ∀ n, fetch n ≠ FetchAttempt.status 200 := by
    intro n hcontra
    rw [hnf n] at hcontra
    exact absurd (by injection hcontra) (by decide)
  obtain ⟨ha, hr⟩ := downloadAux_fail_main cfg fetch date hfail (cfg.maxRetries + 1) 0 none
    (by omega)
  have hres : (downloadSingleDate cfg fetch date).result =
      ⟨none, date, some (GoErr.omieWrap ErrCode.download
        ("failed after " ++ toString cfg.maxRetries ++ " attempts")
        (GoErr.omie ErrCode.notFound ("data not available for date " ++ toString date)))⟩ := by
    rw [show downloadSingleDate cfg fetch date =
      downloadAux cfg fetch date (cfg.maxRetries + 1) 0 none from rfl, hr]
    rw [hnf (0 + (cfg.maxRetries + 1) - 1)]
    rfl
  exact ⟨ha, hres, by rw [hres]; rfl⟩

/-- Claim C1 counterexample: with the default configuration of
maxRetries = 3 and every attempt answering not-found, the downloader
performs 4 attempts and tags the outcome error as a DownloadError
wrapping the NotFoundError; the claimed single NotFoundError outcome
with attempt count 1 does not occur. -/
theorem C1_counterexample :
    (downloadSingleDate ⟨3, 1, 30, 5⟩ (fun _ => FetchAttempt.status 404) 0).attemptsMade = 4 ∧
    ¬ (errCodeOf (downloadSingleDate ⟨3, 1, 30, 5⟩
          (fun _ => FetchAttempt.status 404) 0).result.error = some ErrCode.notFound ∧
       (downloadSingleDate ⟨3, 1, 30, 5⟩ (fun _ => FetchAttempt.status 404) 0).attemptsMade = 1) := by
  decide

/-- Witness for claim C1 at a concrete configuration and date. -/
theorem C1_witness :
    (downloadSingleDate ⟨3, 1, 30, 5⟩ (fun _ => FetchAttempt.status 404) 9).attemptsMade =
      (⟨3, 1, 30, 5⟩ : DownloadConfig).maxRetries + 1 :=
  (C1_notfound_retried_not_immediate ⟨3, 1, 30, 5⟩ (fun _ => FetchAttempt.status 404) 9
    (fun _ => rfl)).1

/-- The inclusive date backlog the feeder goroutine of
GeneralDownloader.URLResponses sends to the workers
(src/unnamed/part_003, lines 125-134), with dates as day numbers. -/
def dateRange (dateIni dateEnd : Nat) : List Nat :=
  List.range' dateIni (dateEnd + 1 - dateIni)

/-- The outcome one worker produces for one date: the ResponseResult of
downloadSingleDate; the fetch oracle may depend on the date and the
attempt number. -/
def outcomeFor (cfg : DownloadConfig) (fetch : Nat → Nat → FetchAttempt) (d : Nat) :
    ResponseResult :=
  (downloadSingleDate cfg (fetch d) d).result

/-- Multiset of outcomes the worker pool of URLResponses pushes to the
result channel in the absence of cancellation: each worker w processes,
in backlog order, the dates the channel race assigned to it, and the
channel delivers the union; assign is the (arbitrary) assignment of
dates to the c workers. -/
def poolEmission (cfg : DownloadConfig) (fetch : Nat → Nat → FetchAttempt)
    (dateIni dateEnd c : Nat) (assign : Nat → Fin c) : Multiset ResponseResult :=
  ∑ w : Fin c, (((dateRange dateIni dateEnd).filter (fun d => assign d = w)).map
    (outcomeFor cfg fetch) : Multiset ResponseResult)

/-- The list out is one possible order in which a consumer receives the
emitted outcomes: any interleaving of the worker streams, hence any list
carrying exactly the emitted multiset. -/
def OrchestrateEmits (cfg : DownloadConfig) (fetch : Nat → Nat → FetchAttempt)
    (dateIni dateEnd c : Nat) (assign : Nat → Fin c) (out : List ResponseResult) : Prop :=
  (out : Multiset ResponseResult) = poolEmission cfg fetch dateIni dateEnd c assign

lemma sum_filter_fibers {c : Nat} (assign : Nat → Fin c)
    (f : Nat → ResponseResult) (l : List Nat) :
    (∑ w : Fin c, ((l.filter (fun d => assign d = w)).map f : Multiset ResponseResult)) =
      (l.map f : Multiset ResponseResult) := by
  induction l with
  | nil => simp
  | cons d l ih =>
    have hsplit : ∀ w : Fin c,
        (((d :: l).filter (fun d2 => assign d2 = w)).map f : Multiset ResponseResult) =
          ((l.filter (fun d2 => assign d2 = w)).map f : Multiset ResponseResult) +
            (if assign d = w then {f d} else 0) := by
      intro w
      by_cases hw : assign d = w
      · rw [List.filter_cons_of_pos (by simpa using hw), if_pos hw]
        rw [List.map_cons, ← Multiset.cons_coe, ← Multiset.singleton_add, add_comm]
      · rw [List.filter_cons_of_neg (by simpa using hw), if_neg hw]
        rw [add_zero]
    rw [Finset.sum_congr rfl (fun w _ => hsplit w), Finset.sum_add_distrib, ih]
    rw [Finset.sum_ite_eq]
    simp only [Finset.mem_univ, if_true]
    rw [List.map_cons, ← Multiset.cons_coe, ← Multiset.singleton_add, add_comm]

lemma outcomeFor_date (cfg : DownloadConfig) (fetch : Nat → Nat → FetchAttempt) (d : Nat) :
    (outcomeFor cfg fetch d).date = d :=
  downloadAux_date cfg (fetch d) d (cfg.maxRetries + 1) 0 none

lemma filter_eq_singleton_of_nodup (l : List Nat) (d : Nat)
    (hnd : l.Nodup) (hmem : d ∈ l) :
    l.filter (fun x => x = d) = [d] := by
  induction l with
  | nil => simp at hmem
  | cons a l ih =>
    rw [List.nodup_cons] at hnd
    obtain ⟨ha, hnd2⟩ := hnd
    by_cases had : a = d
    · subst had
      rw [List.filter_cons_of_pos (by simp)]
      have hnil : l.filter (fun x => x = a) = [] := by
        rw [List.filter_eq_nil_iff]
        intro b hb
        simp only [decide_eq_true_eq]
        intro hba
        exact ha (hba ▸ hb)
      rw [hnil]
    · have hdl : d ∈ l := by
        rcases List.mem_cons.mp hmem with h | h
        · exact absurd h.symm had
        · exact h
      rw [List.filter_cons_of_neg (by simpa using had), ih hnd2 hdl]

/-- Claim C2: for dateIni at most dateEnd, any worker count from 1 to 8,
any assignment of backlog dates to workers, and in the absence of
cancellation, every delivery order of the pool emission contains exactly
dateEnd - dateIni + 1 outcomes, exactly one outcome per date of the
inclusive range, with pairwise distinct date tags all inside the
range. -/
theorem C2_one_outcome_per_date
    (cfg : DownloadConfig) (fetch : Nat → Nat → FetchAttempt)
    (dateIni dateEnd c : Nat) (assign : Nat → Fin c) (out : List ResponseResult)
    (hse : dateIni ≤ dateEnd) (hc1 : 1 ≤ c) (hc8 : c ≤ 8)
    (hemit : OrchestrateEmits cfg fetch dateIni dateEnd c assign out) :
    out.length = dateEnd - dateIni + 1 ∧
    (∀ d, dateIni ≤ d → d ≤ dateEnd →
      (out.filter (fun rr => rr.date = d)).length = 1) ∧
    (out.map ResponseResult.date).Nodup ∧
    (∀ rr ∈ out, dateIni ≤ rr.date ∧ rr.date ≤ dateEnd) := by
  unfold OrchestrateEmits poolEmission at hemit
  rw [sum_filter_fibers] at hemit
  have hperm : out.Perm ((dateRange dateIni dateEnd).map (outcomeFor cfg fetch)) :=
    Multiset.coe_eq_coe.mp hemit
  have hlenr : (dateRange dateIni dateEnd).length = dateEnd + 1 - dateIni := by
    unfold dateRange
    exact List.length_range' _ _ _
  have hnodupr : (dateRange dateIni dateEnd).Nodup := by
    unfold dateRange
    exact List.nodup_range' _ _
  refine ⟨?_, ?_, ?_, ?_⟩
  · rw [hperm.length_eq, List.length_map, hlenr]
    omega
  · intro d hd1 hd2
    rw [(hperm.filter _).length_eq, List.filter_map, List.length_map]
    have hfun : ((fun rr => decide (rr.date = d)) ∘ outcomeFor cfg fetch) =
        (fun x => decide (x = d)) := by
      funext x
      simp [outcomeFor_date]
    rw [hfun]
    have hmemd : d ∈ dateRange dateIni dateEnd := by
      unfold dateRange
      rw [List.mem_range'_1]
      omega
    rw [filter_eq_singleton_of_nodup _ _ hnodupr hmemd]
    rfl
  · have hmap := hperm.map ResponseResult.date
    rw [List.map_map] at hmap
    have heq : ((dateRange dateIni dateEnd).map (ResponseResult.date ∘ outcomeFor cfg fetch)) =
        dateRange dateIni dateEnd := by
      rw [show ResponseResult.date ∘ outcomeFor cfg fetch = id from
        funext (fun d => outcomeFor_date cfg fetch d)]
      exact List.map_id _
    rw [heq] at hmap
    exact hmap.nodup_iff.mpr hnodupr
  · intro rr hrr
    rw [hperm.mem_iff] at hrr
    obtain ⟨d, hd, rfl⟩ := List.mem_map.mp hrr
    rw [outcomeFor_date]
    unfold dateRange at hd
    rw [List.mem_range'_1] at hd
    omega

/-- Witness for claim C2 at a concrete range of three dates with one
worker and an always-successful fetch. -/
theorem C2_witness :
    ([⟨some 0, 1, none⟩, ⟨some 0, 2, none⟩, ⟨some 0, 3, none⟩] :
      List ResponseResult).length = 3 - 1 + 1 :=
  (C2_one_outcome_per_date ⟨3, 1, 30, 5⟩ (fun _ _ => FetchAttempt.status 200) 1 3 1
    (fun _ => ⟨0, by norm_num⟩)
    [⟨some 0, 1, none⟩, ⟨some 0, 2, none⟩, ⟨some 0, 3, none⟩]
    (by norm_num) (by norm_num) (by norm_num) (by rfl)).1
